import Mathlib

/-!
Verification development for the cpm_lab timing substrate:
shallow embedding of TimerFD.cpp, TimerSimulated.cpp (cpm_lib) and
RTTAggregator.cpp (lab_control_center), with theorems about the
claims of the natural-language specification.

All machine integers of the source are `uint64_t`; they are embedded as
`Nat` together with explicit reduction modulo `2 ^ 64` exactly where the
C++ arithmetic can wrap (subtraction, addition, multiplication).
-/

namespace CpmLab

/-- Modulus of the 64-bit unsigned arithmetic used throughout the source. -/
def U64 : Nat := 2 ^ 64

/-- Reserved stop sentinel, `Timer.hpp`: `TRIGGER_STOP_SYMBOL = 0xffffffffffffffff`. -/
def TRIGGER_STOP_SYMBOL : Nat := U64 - 1

/-- Wrapping `uint64_t` subtraction `a - b` for `a, b < 2 ^ 64`. -/
def sub64 (a b : Nat) : Nat := (a + (U64 - b % U64)) % U64

/-- One valid bit plus payload of a DDS `SystemTrigger` sample as the timers
read it: `sample.info().valid()` and `sample.data().next_start().nanoseconds()`. -/
structure Sample where
  valid : Bool
  next_start : Nat
deriving DecidableEq

/-! ## TimerFD (real-time timer), `cpm_lib/src/TimerFD.cpp` -/

/-- Initial deadline computation of `TimerFD::start`, lines 172-177:
if `(start_point - offset) % period == 0` the deadline is `start_point`,
else `(((start_point - offset) / period) + 1) * period + offset`,
all in `uint64_t` arithmetic. -/
def firstDeadline (period offset start_point : Nat) : Nat :=
  if sub64 start_point offset % period = 0 then start_point
  else ((sub64 start_point offset / period + 1) * period + offset) % U64

/-- Deadline advance of one fired loop iteration of `TimerFD::start`,
lines 186-201: `deadline += period`; then, with `current_time` the clock
value read after the update callback returned, if `current_time >= deadline`
the timer logs one missed-periods warning carrying
`k = (current_time - deadline) / period + 1` and advances
`deadline += k * period`.  Returns the new deadline and the logged `k`
(`none` when no warning was logged). -/
def tickStep (period deadline current_time : Nat) : Nat × Option Nat :=
  let d1 := (deadline + period) % U64
  if d1 ≤ current_time then
    let k := sub64 current_time d1 / period + 1
    ((d1 + k * period) % U64, some k)
  else
    (d1, none)

/-- Main loop of `TimerFD::start`, lines 181-215, over a finite trace of
clock observations: each pair `(t1, t2)` of the trace is one loop iteration,
`t1` the `get_time()` value read at the guard on line 183 and `t2` the
value read after the update callback on line 188.  An iteration with
`t1 < deadline` fires nothing (early wake of the timerfd); an iteration with
`deadline ≤ t1` invokes the update callback with the current deadline and
advances it by `tickStep`.  The returned list is the sequence of deadlines
passed to the update callback. -/
def runTicks (period : Nat) : Nat → List (Nat × Nat) → List Nat
  | _, [] => []
  | d, (t1, t2) :: rest =>
    if d ≤ t1 then d :: runTicks period (tickStep period d t2).1 rest
    else runTicks period d rest

/-- First valid sample of one taken batch, as the loop on lines 124-128 of
`TimerFD::receiveStartTime` reads it. -/
def firstValid : List Sample → Option Nat
  | [] => none
  | s :: rest => if s.valid then some s.next_start else firstValid rest

/-- Payload of the first valid `SystemTrigger` observed across the polling
iterations of `TimerFD::receiveStartTime` (each batch is the result of one
`reader_system_trigger.take()` call). -/
def firstValidTrigger : List (List Sample) → Option Nat
  | [] => none
  | batch :: rest =>
    match firstValid batch with
    | some v => some v
    | none => firstValidTrigger rest

/-- `TimerFD::receiveStartTime`, lines 111-133: poll batches of system
triggers until a valid sample arrives and return its `next_start`; when the
timer is deactivated before one arrives (the batch list is exhausted),
return the stop signal. -/
def receiveStartTime (stop_signal : Nat) : List (List Sample) → Nat
  | [] => stop_signal
  | batch :: rest =>
    match firstValid batch with
    | some v => v
    | none => receiveStartTime stop_signal rest

/-- Observable outcome of one (blocking) `TimerFD::start` run. -/
structure StartOutcome where
  cbs : List Nat
  start_point : Nat
  start_point_initialized : Bool
deriving DecidableEq

/-- `TimerFD::start` for `wait_for_start = true`, lines 158-218: negotiate
the start point with `receiveStartTime`; when it is the stop signal, return
before `start_point_initialized` is set and without entering the loop;
otherwise compute the first deadline and run the tick loop over the given
clock trace. -/
def timerFD_start_waiting (period offset stop_signal : Nat)
    (batches : List (List Sample)) (trace : List (Nat × Nat)) : StartOutcome :=
  let sp := receiveStartTime stop_signal batches
  if sp = stop_signal then ⟨[], sp, false⟩
  else ⟨runTicks period (firstDeadline period offset sp) trace, sp, true⟩

/-- `TimerFD::get_start_time`, lines 290-296: 0 until `start_point_initialized`
was set, the negotiated start point thereafter. -/
def get_start_time (o : StartOutcome) : Nat :=
  if o.start_point_initialized then o.start_point else 0

/-- Boundedness of a clock trace: every observation leaves one period of
headroom below `2 ^ 64`, so the deadline arithmetic of the loop does not
wrap (wall-clock nanosecond values are far below that bound). -/
def traceOK (P : Nat) (trace : List (Nat × Nat)) : Prop :=
  ∀ p ∈ trace, p.1 + P < U64 ∧ p.2 + P < U64

instance (P : Nat) (trace : List (Nat × Nat)) : Decidable (traceOK P trace) :=
  inferInstanceAs (Decidable (∀ p ∈ trace, p.1 + P < U64 ∧ p.2 + P < U64))

theorem sub64_eq_sub {a b : Nat} (hb : b ≤ a) (ha : a < U64) : sub64 a b = a - b := by
  have hbU : b < U64 := lt_of_le_of_lt hb ha
  unfold sub64
  rw [Nat.mod_eq_of_lt hbU]
  have h : a + (U64 - b) = U64 + (a - b) := by omega
  rw [h, Nat.add_mod_left, Nat.mod_eq_of_lt (by omega)]

theorem tickStep_advance (P d t2 : Nat) (hP : 0 < P)
    (h1 : d + P < U64) (h2 : t2 + P < U64) :
    ∃ k, 1 ≤ k ∧ (tickStep P d t2).1 = d + k * P ∧ d + k * P < U64 := by
  have hd1 : (d + P) % U64 = d + P := Nat.mod_eq_of_lt h1
  by_cases h : d + P ≤ t2
  · have hsub : sub64 t2 (d + P) = t2 - (d + P) := sub64_eq_sub h (by omega)
    have hqP : (t2 - (d + P)) / P * P ≤ t2 - (d + P) := Nat.div_mul_le_self _ _
    have hlt : d + P + ((t2 - (d + P)) / P + 1) * P < U64 := by
      have hx : ((t2 - (d + P)) / P + 1) * P = (t2 - (d + P)) / P * P + P := by ring
      rw [hx]
      omega
    refine ⟨(t2 - (d + P)) / P + 1 + 1, Nat.le_add_left 1 _, ?_, ?_⟩
    · simp only [tickStep, hd1, if_pos h, hsub]
      rw [Nat.mod_eq_of_lt hlt]
      ring
    · have hx : ((t2 - (d + P)) / P + 1 + 1) * P = ((t2 - (d + P)) / P + 1) * P + P := by
        ring
      rw [hx]
      omega
  · refine ⟨1, le_refl 1, ?_, by omega⟩
    simp only [tickStep, hd1, if_neg h]
    omega

theorem runTicks_inv (P O S : Nat) (hOP : O < P) :
    ∀ (trace : List (Nat × Nat)) (d : Nat), traceOK P trace →
      d % P = O → S ≤ d → d < U64 →
      ∀ x ∈ runTicks P d trace, x % P = O ∧ S ≤ x ∧ x < U64 := by
  intro trace
  induction trace with
  | nil => intro d _ _ _ _ x hx; simp [runTicks] at hx
  | cons p rest ih =>
    obtain ⟨t1, t2⟩ := p
    intro d hOK hmod hS hU x hx
    have hOKrest : traceOK P rest := fun q hq => hOK q (List.mem_cons_of_mem _ hq)
    have h1 : t1 + P < U64 := (hOK (t1, t2) (List.mem_cons_self _ _)).1
    have h2 : t2 + P < U64 := (hOK (t1, t2) (List.mem_cons_self _ _)).2
    simp only [runTicks] at hx
    by_cases hfire : d ≤ t1
    · rw [if_pos hfire] at hx
      rcases List.mem_cons.mp hx with rfl | hx2
      · exact ⟨hmod, hS, hU⟩
      · obtain ⟨k, hk1, hkeq, hklt⟩ :=
          tickStep_advance P d t2 (by omega) (by omega) h2
        refine ih (tickStep P d t2).1 hOKrest ?_ ?_ ?_ x hx2
        · rw [hkeq, Nat.add_mul_mod_self_right, hmod]
        · have : 0 < k * P := Nat.mul_pos (by omega) (by omega)
          omega
        · omega
    · rw [if_neg hfire] at hx
      exact ih d hOKrest hmod hS hU x hx

theorem runTicks_chain (P : Nat) (hP : 0 < P) :
    ∀ (trace : List (Nat × Nat)) (d : Nat), traceOK P trace → d < U64 →
      List.Chain' (fun a b => a < b ∧ ∃ k, 1 ≤ k ∧ b = a + k * P)
        (runTicks P d trace) ∧
      ∀ x ∈ (runTicks P d trace).head?, x = d := by
  intro trace
  induction trace with
  | nil => intro d _ _; simp [runTicks]
  | cons p rest ih =>
    obtain ⟨t1, t2⟩ := p
    intro d hOK hU
    have hOKrest : traceOK P rest := fun q hq => hOK q (List.mem_cons_of_mem _ hq)
    have h1 : t1 + P < U64 := (hOK (t1, t2) (List.mem_cons_self _ _)).1
    have h2 : t2 + P < U64 := (hOK (t1, t2) (List.mem_cons_self _ _)).2
    simp only [runTicks]
    by_cases hfire : d ≤ t1
    · rw [if_pos hfire]
      obtain ⟨k, hk1, hkeq, hklt⟩ := tickStep_advance P d t2 hP (by omega) h2
      obtain ⟨hchain, hhead⟩ := ih (tickStep P d t2).1 hOKrest (by omega)
      constructor
      · rw [List.chain'_cons']
        refine ⟨?_, hchain⟩
        intro b hb
        have hbd : b = (tickStep P d t2).1 := hhead b hb
        have hpos : 0 < k * P := Nat.mul_pos (by omega) hP
        exact ⟨by omega, k, hk1, by omega⟩
      · intro x hx
        simp at hx
        omega
    · rw [if_neg hfire]
      exact ih d hOKrest hU

theorem firstDeadline_props (P O S : Nat) (hOP : O < P) (hOS : O ≤ S)
    (hW : S + P < U64) :
    firstDeadline P O S % P = O ∧ S ≤ firstDeadline P O S ∧
    firstDeadline P O S < S + P ∧
    ∀ d, d % P = O → S ≤ d → firstDeadline P O S ≤ d := by
  have hP : 0 < P := by omega
  have hSU : S < U64 := by omega
  have hsub : sub64 S O = S - O := sub64_eq_sub hOS hSU
  unfold firstDeadline
  rw [hsub]
  by_cases h : (S - O) % P = 0
  · rw [if_pos h]
    refine ⟨?_, le_refl S, by omega, fun d _ hd => hd⟩
    have hSO : S = O + (S - O) := by omega
    calc S % P = (O + (S - O)) % P := by rw [← hSO]
      _ = (O % P + (S - O) % P) % P := Nat.add_mod _ _ _
      _ = O % P % P := by rw [h, Nat.add_zero]
      _ = O % P := Nat.mod_eq_of_lt (Nat.mod_lt _ hP)
      _ = O := Nat.mod_eq_of_lt hOP
  · rw [if_neg h]
    have h1 : P * ((S - O) / P) + (S - O) % P = S - O := Nat.div_add_mod _ _
    have h2 : (S - O) % P < P := Nat.mod_lt _ hP
    have hval : ((S - O) / P + 1) * P + O = P * ((S - O) / P) + P + O := by ring
    have hlt : ((S - O) / P + 1) * P + O < U64 := by rw [hval]; omega
    rw [Nat.mod_eq_of_lt hlt]
    refine ⟨?_, ?_, ?_, ?_⟩
    · rw [Nat.add_comm, Nat.add_mul_mod_self_right]
      exact Nat.mod_eq_of_lt hOP
    · rw [hval]; omega
    · rw [hval]; omega
    · intro d hdmod hSd
      have hd1 : P * (d / P) + d % P = d := Nat.div_add_mod _ _
      rw [hdmod] at hd1
      have hqlt : (S - O) / P < d / P := by
        by_contra hc
        push_neg at hc
        have hm : P * (d / P) ≤ P * ((S - O) / P) := mul_le_mul_left' hc P
        omega
      have hsucc : (S - O) / P + 1 ≤ d / P := hqlt
      have hmul : ((S - O) / P + 1) * P ≤ d / P * P := mul_le_mul_right' hsucc P
      have hcomm : d / P * P = P * (d / P) := Nat.mul_comm _ _
      omega

/-- C1 (amended): for the real-time timer with period `P`, offset `O < P`
and a negotiated start instant `S` with `O ≤ S` and `S + P < 2 ^ 64` (no
64-bit wrap-around), the first deadline computed by `TimerFD::start` is the
least boundary congruent to `O` modulo `P` that is `≥ S`, and every tick
reported to the update callback over a bounded clock trace satisfies
`(d − O) mod P = 0` and `d ≥ S`.  The claim without the `O ≤ S` restriction
is refuted by `timerFD_first_deadline_wrap_cex`: for `S < O` the wrapping
`uint64_t` subtraction makes the computed deadline miss the boundaries. -/
theorem timerFD_tick_alignment (P O S : Nat) (trace : List (Nat × Nat))
    (hOP : O < P) (hOS : O ≤ S) (hW : S + P < U64) (hOK : traceOK P trace) :
    (firstDeadline P O S % P = O % P ∧ S ≤ firstDeadline P O S ∧
      (∀ d, d % P = O % P → S ≤ d → firstDeadline P O S ≤ d)) ∧
    (∀ x ∈ runTicks P (firstDeadline P O S) trace,
      sub64 x O % P = 0 ∧ S ≤ x) := by
  obtain ⟨hmod, hge, hlt, hmin⟩ := firstDeadline_props P O S hOP hOS hW
  have hOPmod : O % P = O := Nat.mod_eq_of_lt hOP
  have hrun := runTicks_inv P O S hOP trace (firstDeadline P O S) hOK hmod hge
    (by omega)
  refine ⟨⟨by rw [hOPmod]; exact hmod, hge, ?_⟩, ?_⟩
  · intro d hdmod hSd
    exact hmin d (by rw [← hOPmod]; exact hdmod) hSd
  · intro x hx
    obtain ⟨hxmod, hxge, hxlt⟩ := hrun x hx
    have hOx : O ≤ x := le_trans hOS hxge
    have hxsub : sub64 x O = x - O := sub64_eq_sub hOx hxlt
    have hdx : P * (x / P) + x % P = x := Nat.div_add_mod _ _
    rw [hxmod] at hdx
    have hxO : x - O = P * (x / P) := by omega
    rw [hxsub, hxO, Nat.mul_mod_right]
    exact ⟨rfl, hxge⟩

/-- Witness for `timerFD_tick_alignment`: period 10, offset 5, start 27,
clock trace `[(35, 36), (99, 300)]` (ticks fire at 35 and 45, the second
with a large overrun). -/
theorem timerFD_tick_alignment_witness :
    (firstDeadline 10 5 27 % 10 = 5 % 10 ∧ 27 ≤ firstDeadline 10 5 27 ∧
      (∀ d, d % 10 = 5 % 10 → 27 ≤ d → firstDeadline 10 5 27 ≤ d)) ∧
    (∀ x ∈ runTicks 10 (firstDeadline 10 5 27) [(35, 36), (99, 300)],
      sub64 x 5 % 10 = 0 ∧ 27 ≤ x) :=
  timerFD_tick_alignment 10 5 27 [(35, 36), (99, 300)] (by decide) (by decide)
    (by decide) (by decide)

/-- Counterexample to C1 as stated: with period 10, offset 5 and negotiated
start instant 2 (the case `S < O` that the claim explicitly includes),
`TimerFD::start` computes first deadline 9 through 64-bit wrap-around.
9 is not a period boundary (`(9 − 5) mod 10 = 4 ≠ 0` in the claimed
`uint64_t` sense), while 5 is a boundary `≥ S` strictly below it, so the
computed deadline is not the first boundary of the claimed form `≥ S`. -/
theorem timerFD_first_deadline_wrap_cex :
    firstDeadline 10 5 2 = 9 ∧ sub64 (firstDeadline 10 5 2) 5 % 10 ≠ 0 ∧
    (5 : Nat) % 10 = 5 % 10 ∧ (2 : Nat) ≤ 5 ∧ (5 : Nat) < firstDeadline 10 5 2 := by
  decide

/-- C2: missed-period recovery of the `TimerFD::start` main loop.  When the
clock value `t2` observed after the update callback returned satisfies
`t2 ≥ d + P` (the already-incremented next deadline), the loop logs exactly
one missed-periods warning carrying `k = (t2 − (d + P)) div P + 1` and
advances the deadline to `(d + P) + k·P`; otherwise it logs nothing and the
deadline is `d + P`.  Consequently the deadlines passed to consecutive
callback invocations form a strictly increasing chain with
`d_next = d_prev + k·P` for some `k ≥ 1` (skipped slots are never
back-filled).  Stated under no-wrap bounds on the observed clock values. -/
theorem timerFD_missed_period_recovery (P d t2 d0 : Nat)
    (trace : List (Nat × Nat)) (hP : 0 < P) (hd : d + P < U64)
    (ht : t2 + P < U64) (hd0 : d0 < U64) (hOK : traceOK P trace) :
    (d + P ≤ t2 →
      tickStep P d t2 =
        (d + P + ((t2 - (d + P)) / P + 1) * P, some ((t2 - (d + P)) / P + 1))) ∧
    (t2 < d + P → tickStep P d t2 = (d + P, none)) ∧
    List.Chain' (fun a b => a < b ∧ ∃ k, 1 ≤ k ∧ b = a + k * P)
      (runTicks P d0 trace) := by
  refine ⟨?_, ?_, (runTicks_chain P hP trace d0 hOK hd0).1⟩
  · intro h
    have hsub : sub64 t2 (d + P) = t2 - (d + P) := sub64_eq_sub h (by omega)
    have hd1 : (d + P) % U64 = d + P := Nat.mod_eq_of_lt hd
    have hqP : (t2 - (d + P)) / P * P ≤ t2 - (d + P) := Nat.div_mul_le_self _ _
    have hlt : d + P + ((t2 - (d + P)) / P + 1) * P < U64 := by
      have hx : ((t2 - (d + P)) / P + 1) * P = (t2 - (d + P)) / P * P + P := by ring
      rw [hx]; omega
    simp only [tickStep, hd1, if_pos h, hsub]
    rw [Nat.mod_eq_of_lt hlt]
  · intro h
    have hd1 : (d + P) % U64 = d + P := Nat.mod_eq_of_lt hd
    simp only [tickStep, hd1, if_neg (by omega : ¬ d + P ≤ t2)]

/-- Witness for `timerFD_missed_period_recovery`: period 10, the fired
deadline 45 followed by the late clock reading 300 (23 periods missed,
`k = 25`), over the trace that fires deadlines 35 and 45. -/
theorem timerFD_missed_period_recovery_witness :
    ((45 + 10 ≤ 300 →
      tickStep 10 45 300 =
        (45 + 10 + ((300 - (45 + 10)) / 10 + 1) * 10,
          some ((300 - (45 + 10)) / 10 + 1))) ∧
    (300 < 45 + 10 → tickStep 10 45 300 = (45 + 10, none)) ∧
    List.Chain' (fun a b => a < b ∧ ∃ k, 1 ≤ k ∧ b = a + k * 10)
      (runTicks 10 35 [(35, 36), (99, 300)])) :=
  timerFD_missed_period_recovery 10 45 300 35 [(35, 36), (99, 300)]
    (by decide) (by decide) (by decide) (by decide) (by decide)

/-! ## Timer lifecycle flags (TimerFD.cpp and TimerSimulated.cpp) -/

/-- The two atomic flags of a timer instance (`active`, `cancelled`), as both
`TimerFD` and `TimerSimulated` hold them.  The constructors initialise both
to `false` (TimerFD.cpp lines 52-53, TimerSimulated.cpp lines 35-36). -/
structure TimerLifecycle where
  active : Bool
  cancelled : Bool
deriving DecidableEq

/-- Outcome of the entry protocol of `start`: the exception path, the
pre-loop early return, or reaching the tick loop.  Each carries the flag
state the call leaves behind. -/
inductive StartResult
  | errorTimerStart (s : TimerLifecycle)
  | returnedBeforeLoop (s : TimerLifecycle)
  | ranLoop (s : TimerLifecycle)
deriving DecidableEq

/-- Entry protocol of `TimerFD::start`, lines 137-151 (`TimerSimulated::start`
lines 91-106 is identical): if `active` is set, throw `ErrorTimerStart`
without mutating anything; otherwise store `active := true`; then, if
`cancelled` is set, return before creating the timer and the tick loop;
otherwise proceed into the tick loop. -/
def startEntry (s : TimerLifecycle) : StartResult :=
  if s.active then .errorTimerStart s
  else
    let s1 : TimerLifecycle := ⟨true, s.cancelled⟩
    if s1.cancelled then .returnedBeforeLoop s1
    else .ranLoop s1

/-- Net effect of a completed `TimerFD::stop`, lines 252-265
(`TimerSimulated::stop`, lines 168-180, is identical): `cancelled := true`,
`active := false`, join the worker, then `cancelled := false` again —
so after `stop()` returns, both flags are clear. -/
def stopOp (_s : TimerLifecycle) : TimerLifecycle := ⟨false, false⟩

/-- C4 (amended): calling `start()` while the timer is already started
throws `ErrorTimerStart` and leaves the flags in their prior state, and a
`start()` that observes `cancelled` (a `stop()` racing the pre-loop window)
returns before the tick loop; but a completed `stop()` resets `cancelled`
to `false`, so a subsequent `start()` on the same instance passes both
guards and runs the tick loop again — the instance is not terminal.  The
terminality part of the claim as stated is refuted by
`timer_restart_after_stop_cex`. -/
theorem timer_start_entry_protocol (s : TimerLifecycle) :
    (s.active = true → startEntry s = .errorTimerStart s) ∧
    (s.active = false → s.cancelled = true →
      startEntry s = .returnedBeforeLoop ⟨true, true⟩) ∧
    (s.active = false → s.cancelled = false → startEntry s = .ranLoop ⟨true, false⟩) ∧
    startEntry (stopOp s) = .ranLoop ⟨true, false⟩ := by
  obtain ⟨a, c⟩ := s
  cases a <;> cases c <;> simp [startEntry, stopOp]

/-- Counterexample to C4 as stated: a timer that was started
(`active = true`) and then stopped (`stopOp`) is not terminal — the next
`start()` passes both guards and reaches the tick loop, so the update
callback can be invoked again on the same instance. -/
theorem timer_restart_after_stop_cex :
    startEntry (stopOp ⟨true, false⟩) = .ranLoop ⟨true, false⟩ := by decide

/-! ## Constructor checks (C6) -/

/-- Outcome of running a constructor: a constructed object, a process abort
through `exit(EXIT_FAILURE)` (nothing is surfaced to the caller), or an
`ErrorConfiguration` exception surfaced to the caller (what the claim
expects; no constructor of the source produces it). -/
inductive ConstructorOutcome (α : Type)
  | ok (a : α)
  | processExit
  | raisedErrorConfiguration
deriving DecidableEq

/-- Configuration stored by a constructed `TimerFD` (TimerFD.hpp fields set
by the constructor initialiser list, TimerFD.cpp lines 21-35). -/
structure TimerFDConfig where
  node_id : String
  period_nanoseconds : Nat
  offset_nanoseconds : Nat
  wait_for_start : Bool
  stop_signal : Nat
deriving DecidableEq

/-- `TimerFD::TimerFD`, lines 21-54: when `offset_nanoseconds >=
period_nanoseconds` the constructor logs, prints to stderr and calls
`exit(EXIT_FAILURE)` — the process terminates and no object is created;
otherwise the object is constructed. -/
def TimerFD_construct (node_id : String) (period offset : Nat)
    (wait_for_start : Bool) (stop_signal : Nat) :
    ConstructorOutcome TimerFDConfig :=
  if period ≤ offset then .processExit
  else .ok ⟨node_id, period, offset, wait_for_start, stop_signal⟩

/-- Configuration stored by a constructed `TimerSimulated`
(TimerSimulated.cpp lines 18-28). -/
structure TimerSimulatedConfig where
  node_id : String
  period_nanoseconds : Nat
  offset_nanoseconds : Nat
deriving DecidableEq

/-- `TimerSimulated::TimerSimulated`, lines 18-37: no check on the offset
(source comment line 30: the offset is allowed to be greater than the
period); construction always succeeds. -/
def TimerSimulated_construct (node_id : String) (period offset : Nat) :
    ConstructorOutcome TimerSimulatedConfig :=
  .ok ⟨node_id, period, offset⟩

/-- C6 (amended): constructing a real-time timer with
`offset_ns ≥ period_ns` is fatal and creates no partial object, but the
failure is a process abort through `exit(EXIT_FAILURE)`, not an
`ErrorConfiguration` exception surfaced to the caller (no such exception
exists in the source); the simulated timer accepts every offset, including
`offset ≥ period`.  The surfaced-as-`ErrorConfiguration` part of the claim
is refuted by `timerFD_construct_exit_cex`. -/
theorem timer_construct_offset_check (node_id : String) (P O ss : Nat)
    (w : Bool) :
    (P ≤ O → TimerFD_construct node_id P O w ss = .processExit) ∧
    (O < P → TimerFD_construct node_id P O w ss = .ok ⟨node_id, P, O, w, ss⟩) ∧
    TimerFD_construct node_id P O w ss ≠ .raisedErrorConfiguration ∧
    TimerSimulated_construct node_id P O = .ok ⟨node_id, P, O⟩ := by
  refine ⟨?_, ?_, ?_, rfl⟩
  · intro h; simp [TimerFD_construct, if_pos h]
  · intro h; simp [TimerFD_construct, Nat.not_le.mpr h]
  · unfold TimerFD_construct
    by_cases h : P ≤ O <;> simp [h]

/-- Counterexample to C6 as stated: at period 10, offset 10 the `TimerFD`
constructor terminates the process instead of raising `ErrorConfiguration`
to the caller. -/
theorem timerFD_construct_exit_cex :
    TimerFD_construct "node" 10 10 true TRIGGER_STOP_SYMBOL =
      ConstructorOutcome.processExit ∧
    TimerFD_construct "node" 10 10 true TRIGGER_STOP_SYMBOL ≠
      ConstructorOutcome.raisedErrorConfiguration := by
  refine ⟨rfl, by decide⟩

theorem receiveStartTime_of_firstValidTrigger (stop_signal v : Nat) :
    ∀ batches : List (List Sample), firstValidTrigger batches = some v →
      receiveStartTime stop_signal batches = v := by
  intro batches
  induction batches with
  | nil => intro h; simp [firstValidTrigger] at h
  | cons batch rest ih =>
    intro h
    simp only [firstValidTrigger] at h
    simp only [receiveStartTime]
    cases hfv : firstValid batch with
    | some w => rw [hfv] at h; simp at h; simp [h]
    | none => rw [hfv] at h; exact ih h

/-- C9: when the first valid `SystemTrigger` observed during start
negotiation carries `next_start` equal to the stop signal,
`TimerFD::start` (with `wait_for_start = true`) returns without ever
invoking the update callback, `start_point_initialized` is never set, and
`get_start_time()` returns 0 afterwards. -/
theorem timerFD_stop_during_start_negotiation (P O stop_signal : Nat)
    (batches : List (List Sample)) (trace : List (Nat × Nat))
    (h : firstValidTrigger batches = some stop_signal) :
    (timerFD_start_waiting P O stop_signal batches trace).cbs = [] ∧
    (timerFD_start_waiting P O stop_signal batches trace).start_point_initialized
      = false ∧
    get_start_time (timerFD_start_waiting P O stop_signal batches trace) = 0 := by
  have hrs : receiveStartTime stop_signal batches = stop_signal :=
    receiveStartTime_of_firstValidTrigger stop_signal stop_signal batches h
  simp [timerFD_start_waiting, hrs, get_start_time]

/-- Witness for `timerFD_stop_during_start_negotiation`: the first batch
holds an invalid sample followed by a valid stop trigger. -/
theorem timerFD_stop_during_start_negotiation_witness :
    (timerFD_start_waiting 20 5 TRIGGER_STOP_SYMBOL
      [[⟨false, 3⟩, ⟨true, TRIGGER_STOP_SYMBOL⟩]] [(1, 2)]).cbs = [] ∧
    (timerFD_start_waiting 20 5 TRIGGER_STOP_SYMBOL
      [[⟨false, 3⟩, ⟨true, TRIGGER_STOP_SYMBOL⟩]] [(1, 2)]).start_point_initialized
      = false ∧
    get_start_time (timerFD_start_waiting 20 5 TRIGGER_STOP_SYMBOL
      [[⟨false, 3⟩, ⟨true, TRIGGER_STOP_SYMBOL⟩]] [(1, 2)]) = 0 :=
  timerFD_stop_during_start_negotiation 20 5 TRIGGER_STOP_SYMBOL
    [[⟨false, 3⟩, ⟨true, TRIGGER_STOP_SYMBOL⟩]] [(1, 2)] (by decide)

/-! ## TimerSimulated, `cpm_lib/src/TimerSimulated.cpp` -/

/-- Return value of `TimerSimulated::handle_system_trigger`
(TimerSimulated.hpp / TimerSimulated.cpp lines 39-87). -/
inductive Answer
  | NONE
  | ANY
  | DEADLINE
  | STOP
deriving DecidableEq

/-- Observable outcome of one `TimerSimulated::handle_system_trigger` call:
the returned answer, the timer state it leaves (`deadline` is the in-out
reference argument, `current_time` and `active` are members), the deadlines
passed to the update callback, the `next_start_stamp` values of the
`ReadyStatus` messages written, and whether the registered stop callback
was invoked. -/
structure SimOutcome where
  answer : Answer
  deadline : Nat
  current_time : Nat
  active : Bool
  cbs : List Nat
  published : List Nat
  stop_cb_called : Bool
deriving DecidableEq

/-- `TimerSimulated::handle_system_trigger`, lines 39-87, over the list of
samples of one `reader_system_trigger.take()` call.  Per valid sample:
if `next_start` equals the current deadline, set `current_time` to it,
invoke the update callback with it, advance the deadline by the period
(`uint64_t` addition) and publish a `ReadyStatus` carrying the new
deadline; otherwise, if `next_start` equals `TRIGGER_STOP_SYMBOL`, invoke
the stop callback when one is registered (else clear `active`) and return
`STOP` at once, leaving the remaining samples unprocessed; every other
sample only records that a valid sample was seen.  The first two arguments
are the accumulators `got_valid` and `got_new_deadline`. -/
def handle_system_trigger (P : Nat) (hasStopCb : Bool) :
    Bool → Bool → Nat → Nat → Bool → List Sample → SimOutcome
  | gotValid, gotNew, deadline, current_time, active, [] =>
    ⟨if gotNew then .DEADLINE else if gotValid then .ANY else .NONE,
      deadline, current_time, active, [], [], false⟩
  | gotValid, gotNew, deadline, current_time, active, s :: rest =>
    if s.valid then
      if s.next_start = deadline then
        let d2 := (deadline + P) % U64
        let o := handle_system_trigger P hasStopCb true true d2 deadline active rest
        ⟨o.answer, o.deadline, o.current_time, o.active,
          deadline :: o.cbs, d2 :: o.published, o.stop_cb_called⟩
      else if s.next_start = TRIGGER_STOP_SYMBOL then
        ⟨.STOP, deadline, current_time,
          if hasStopCb then active else false, [], [], hasStopCb⟩
      else
        handle_system_trigger P hasStopCb true gotNew deadline current_time active rest
    else
      handle_system_trigger P hasStopCb gotValid gotNew deadline current_time active rest

/-- Successive expected deadlines starting at `d`: the list
`[d, d + P, d + 2·P, …]` of the given length (`uint64_t` addition). -/
def deadlinesFrom (P : Nat) : Nat → Nat → List Nat
  | _, 0 => []
  | d, n + 1 => d :: deadlinesFrom P ((d + P) % U64) n

/-- Deadline after `n` advances by the period (`uint64_t` addition). -/
def advanceDeadline (P : Nat) : Nat → Nat → Nat
  | d, 0 => d
  | d, n + 1 => advanceDeadline P ((d + P) % U64) n

/-- First sample of the batch that is valid and carries either the current
deadline or the stop symbol — the first sample whose processing changes the
timer state. -/
def firstRelevant (deadline : Nat) (samples : List Sample) : Option Sample :=
  samples.find? fun s =>
    s.valid && (s.next_start == deadline || s.next_start == TRIGGER_STOP_SYMBOL)

theorem handleST_shape (P : Nat) (hsc : Bool) :
    ∀ (samples : List Sample) (gv gn : Bool) (d ct : Nat) (act : Bool),
      ∃ n, (handle_system_trigger P hsc gv gn d ct act samples).cbs =
          deadlinesFrom P d n ∧
        (handle_system_trigger P hsc gv gn d ct act samples).deadline =
          advanceDeadline P d n ∧
        (handle_system_trigger P hsc gv gn d ct act samples).published =
          (handle_system_trigger P hsc gv gn d ct act samples).cbs.map
            (fun x => (x + P) % U64) := by
  intro samples
  induction samples with
  | nil =>
    intro gv gn d ct act
    exact ⟨0, by simp [handle_system_trigger, deadlinesFrom, advanceDeadline]⟩
  | cons s rest ih =>
    intro gv gn d ct act
    by_cases hv : s.valid
    · by_cases hm : s.next_start = d
      · obtain ⟨n, ih1, ih2, ih3⟩ := ih true true ((d + P) % U64) d act
        refine ⟨n + 1, ?_⟩
        simp only [handle_system_trigger]
        rw [if_pos hv, if_pos hm]
        simp only [deadlinesFrom, advanceDeadline, List.map_cons]
        exact ⟨by rw [ih1], by rw [ih2], by rw [ih3]⟩
      · by_cases hst : s.next_start = TRIGGER_STOP_SYMBOL
        · refine ⟨0, ?_⟩
          simp only [handle_system_trigger]
          rw [if_pos hv, if_neg hm, if_pos hst]
          simp [deadlinesFrom, advanceDeadline]
        · simp only [handle_system_trigger]
          rw [if_pos hv, if_neg hm, if_neg hst]
          exact ih true gn d ct act
    · simp only [handle_system_trigger]
      rw [if_neg hv]
      exact ih gv gn d ct act

theorem firstRelevant_cons (d : Nat) (s : Sample) (rest : List Sample) :
    firstRelevant d (s :: rest) =
      if s.valid = true ∧ (s.next_start = d ∨ s.next_start = TRIGGER_STOP_SYMBOL)
      then some s else firstRelevant d rest := by
  by_cases h : s.valid = true ∧ (s.next_start = d ∨ s.next_start = TRIGGER_STOP_SYMBOL)
  · rw [if_pos h]
    apply List.find?_cons_of_pos
    rcases h.2 with h2 | h2 <;> simp [h.1, h2]
  · rw [if_neg h]
    apply List.find?_cons_of_neg
    push_neg at h
    by_cases hv : s.valid
    · obtain ⟨hm, hst⟩ := h hv
      simp [hv, hm, hst]
    · simp [Bool.not_eq_true] at hv
      simp [hv]

theorem handleST_cbs_iff (P : Nat) (hsc : Bool) :
    ∀ (samples : List Sample) (gv gn : Bool) (d ct : Nat) (act : Bool),
      ((handle_system_trigger P hsc gv gn d ct act samples).cbs ≠ [] ↔
        ∃ s, firstRelevant d samples = some s ∧ s.next_start = d) := by
  intro samples
  induction samples with
  | nil =>
    intro gv gn d ct act
    simp [handle_system_trigger, firstRelevant]
  | cons s rest ih =>
    intro gv gn d ct act
    by_cases hv : s.valid
    · by_cases hm : s.next_start = d
      · have hcond : s.valid = true ∧
            (s.next_start = d ∨ s.next_start = TRIGGER_STOP_SYMBOL) := ⟨hv, Or.inl hm⟩
        simp only [handle_system_trigger]
        rw [if_pos hv, if_pos hm]
        rw [firstRelevant_cons, if_pos hcond]
        constructor
        · intro _
          exact ⟨s, rfl, hm⟩
        · intro _
          simp
      · by_cases hst : s.next_start = TRIGGER_STOP_SYMBOL
        · have hcond : s.valid = true ∧
              (s.next_start = d ∨ s.next_start = TRIGGER_STOP_SYMBOL) := ⟨hv, Or.inr hst⟩
          simp only [handle_system_trigger]
          rw [if_pos hv, if_neg hm, if_pos hst]
          rw [firstRelevant_cons, if_pos hcond]
          constructor
          · intro h
            simp at h
          · rintro ⟨s', hs', hsd⟩
            injection hs' with h
            exact absurd (h ▸ hsd) hm
        · simp only [handle_system_trigger]
          rw [if_pos hv, if_neg hm, if_neg hst]
          rw [firstRelevant_cons,
            if_neg (by push_neg; intro _; exact ⟨hm, hst⟩)]
          exact ih true gn d ct act
    · simp only [handle_system_trigger]
      rw [if_neg hv]
      rw [firstRelevant_cons, if_neg (by intro hc; exact hv hc.1)]
      exact ih gv gn d ct act

theorem handleST_no_relevant (P : Nat) (hsc : Bool) :
    ∀ (samples : List Sample) (gv gn : Bool) (d ct : Nat) (act : Bool),
      firstRelevant d samples = none →
      (handle_system_trigger P hsc gv gn d ct act samples).deadline = d ∧
      (handle_system_trigger P hsc gv gn d ct act samples).current_time = ct ∧
      (handle_system_trigger P hsc gv gn d ct act samples).active = act ∧
      (handle_system_trigger P hsc gv gn d ct act samples).cbs = [] ∧
      (handle_system_trigger P hsc gv gn d ct act samples).published = [] ∧
      (handle_system_trigger P hsc gv gn d ct act samples).stop_cb_called = false ∧
      (handle_system_trigger P hsc gv gn d ct act samples).answer ≠ Answer.STOP := by
  intro samples
  induction samples with
  | nil =>
    intro gv gn d ct act _
    cases gv <;> cases gn <;> simp [handle_system_trigger]
  | cons s rest ih =>
    intro gv gn d ct act hfr
    rw [firstRelevant_cons] at hfr
    by_cases hc : s.valid = true ∧ (s.next_start = d ∨ s.next_start = TRIGGER_STOP_SYMBOL)
    · rw [if_pos hc] at hfr
      exact absurd hfr (by simp)
    · rw [if_neg hc] at hfr
      push_neg at hc
      by_cases hv : s.valid
      · obtain ⟨hm, hst⟩ := hc hv
        simp only [handle_system_trigger]
        rw [if_pos hv, if_neg hm, if_neg hst]
        exact ih true gn d ct act hfr
      · simp only [handle_system_trigger]
        rw [if_neg hv]
        exact ih gv gn d ct act hfr

theorem handleST_stop_first (P : Nat) (hsc : Bool) :
    ∀ (samples : List Sample) (gv gn : Bool) (d ct : Nat) (act : Bool) (s : Sample),
      firstRelevant d samples = some s → s.next_start ≠ d →
      (handle_system_trigger P hsc gv gn d ct act samples).answer = Answer.STOP ∧
      (handle_system_trigger P hsc gv gn d ct act samples).cbs = [] ∧
      (handle_system_trigger P hsc gv gn d ct act samples).deadline = d ∧
      (handle_system_trigger P hsc gv gn d ct act samples).current_time = ct ∧
      (handle_system_trigger P hsc gv gn d ct act samples).stop_cb_called = hsc ∧
      (handle_system_trigger P hsc gv gn d ct act samples).active =
        (if hsc = true then act else false) := by
  intro samples
  induction samples with
  | nil =>
    intro gv gn d ct act s hfr _
    simp [firstRelevant] at hfr
  | cons s0 rest ih =>
    intro gv gn d ct act s hfr hnd
    rw [firstRelevant_cons] at hfr
    by_cases hc : s0.valid = true ∧ (s0.next_start = d ∨ s0.next_start = TRIGGER_STOP_SYMBOL)
    · rw [if_pos hc] at hfr
      injection hfr with h0
      subst h0
      rcases hc.2 with hm | hst
      · exact absurd hm hnd
      · simp only [handle_system_trigger]
        rw [if_pos hc.1, if_neg hnd, if_pos hst]
        refine ⟨rfl, rfl, rfl, rfl, rfl, ?_⟩
        cases hsc <;> rfl
    · rw [if_neg hc] at hfr
      push_neg at hc
      by_cases hv : s0.valid
      · obtain ⟨hm, hst⟩ := hc hv
        simp only [handle_system_trigger]
        rw [if_pos hv, if_neg hm, if_neg hst]
        exact ih true gn d ct act s hfr hnd
      · simp only [handle_system_trigger]
        rw [if_neg hv]
        exact ih gv gn d ct act s hfr hnd

/-- C3: trigger processing of the simulated timer.  For one
`handle_system_trigger` call on a batch of samples: the update callback is
invoked iff the first valid sample carrying the current deadline or the stop
symbol exists and carries the deadline (exact match); the callback
deadlines are exactly the successive expected deadlines starting at `d`,
each match advancing the deadline by the period and publishing a
`ReadyStatus` carrying the advanced deadline; when no sample is relevant
(stale, duplicate, foreign or invalid), the whole timer state is unchanged,
nothing is invoked or published and the call does not stop the timer; and
when the first relevant sample is a stop trigger (not a match), the call
returns `STOP`, invokes the registered stop callback when one exists and
otherwise clears `active`, with the state otherwise unchanged. -/
theorem timerSimulated_trigger_processing (P d ct : Nat) (act hsc : Bool)
    (samples : List Sample) (o : SimOutcome)
    (ho : o = handle_system_trigger P hsc false false d ct act samples) :
    (o.cbs ≠ [] ↔ ∃ s, firstRelevant d samples = some s ∧ s.next_start = d) ∧
    (∃ n, o.cbs = deadlinesFrom P d n ∧ o.deadline = advanceDeadline P d n) ∧
    o.published = o.cbs.map (fun x => (x + P) % U64) ∧
    (firstRelevant d samples = none →
      o.deadline = d ∧ o.current_time = ct ∧ o.active = act ∧ o.cbs = [] ∧
      o.published = [] ∧ o.stop_cb_called = false ∧ o.answer ≠ Answer.STOP) ∧
    (∀ s, firstRelevant d samples = some s → s.next_start ≠ d →
      o.answer = Answer.STOP ∧ o.cbs = [] ∧ o.deadline = d ∧
      o.current_time = ct ∧ o.stop_cb_called = hsc ∧
      o.active = (if hsc = true then act else false)) := by
  subst ho
  obtain ⟨n, h1, h2, h3⟩ := handleST_shape P hsc samples false false d ct act
  exact ⟨handleST_cbs_iff P hsc samples false false d ct act, ⟨n, h1, h2⟩, h3,
    handleST_no_relevant P hsc samples false false d ct act,
    fun s hs hnd => handleST_stop_first P hsc samples false false d ct act s hs hnd⟩

/-- Witness for `timerSimulated_trigger_processing`: period 10, deadline 30,
a batch holding a foreign trigger (99), the exact match (30), the follow-up
match (40) and an invalid sample; the callback fires for 30 and 40. -/
theorem timerSimulated_trigger_processing_witness :
    let o : SimOutcome := ⟨Answer.DEADLINE, 50, 40, true, [30, 40], [40, 50], false⟩
    let samples : List Sample := [⟨true, 99⟩, ⟨true, 30⟩, ⟨true, 40⟩, ⟨false, 7⟩]
    (o.cbs ≠ [] ↔ ∃ s, firstRelevant 30 samples = some s ∧ s.next_start = 30) ∧
    (∃ n, o.cbs = deadlinesFrom 10 30 n ∧ o.deadline = advanceDeadline 10 30 n) ∧
    o.published = o.cbs.map (fun x => (x + 10) % U64) ∧
    (firstRelevant 30 samples = none →
      o.deadline = 30 ∧ o.current_time = 0 ∧ o.active = true ∧ o.cbs = [] ∧
      o.published = [] ∧ o.stop_cb_called = false ∧ o.answer ≠ Answer.STOP) ∧
    (∀ s, firstRelevant 30 samples = some s → s.next_start ≠ 30 →
      o.answer = Answer.STOP ∧ o.cbs = [] ∧ o.deadline = 30 ∧
      o.current_time = 0 ∧ o.stop_cb_called = false ∧
      o.active = (if false = true then true else false)) :=
  timerSimulated_trigger_processing 10 30 0 true false
    [⟨true, 99⟩, ⟨true, 30⟩, ⟨true, 40⟩, ⟨false, 7⟩]
    ⟨Answer.DEADLINE, 50, 40, true, [30, 40], [40, 50], false⟩ (by decide)

/-- Events of `TimerSimulated::start` visible on the bus and to the user. -/
inductive SimEvent
  | publishReady (stamp : Nat)
  | waitTrigger (timeout_ms : Option Nat)
  | callback (d : Nat)
deriving DecidableEq

/-- True exactly on wait events. -/
def isWaitEvent : SimEvent → Bool
  | .waitTrigger _ => true
  | _ => false

/-- True exactly on publish events. -/
def isPublishEvent : SimEvent → Bool
  | .publishReady _ => true
  | _ => false

/-- Callback and publish events of one `handle_system_trigger` call over its
matched deadlines (lines 51-60): per match, the callback invocation followed
by the publication of the `ReadyStatus` carrying the advanced deadline. -/
def handleEvents (P : Nat) : List Nat → List SimEvent
  | [] => []
  | d :: rest =>
    SimEvent.callback d :: SimEvent.publishReady ((d + P) % U64) ::
      handleEvents P rest

/-- Pre-start loop of `TimerSimulated::start`, lines 115-124: while the last
answer is `NONE` and the timer is active, publish the `ReadyStatus` with the
current deadline, wait on the waitset with a 2000 ms timeout, and process
one batch of triggers. -/
def simStartupLoop (P : Nat) (hsc : Bool) :
    Answer → Nat → Nat → Bool → List (List Sample) → List SimEvent
  | _, _, _, _, [] => []
  | ans, d, ct, act, batch :: rest =>
    if ans = Answer.NONE ∧ act = true then
      SimEvent.publishReady d :: SimEvent.waitTrigger (some 2000) ::
        (handleEvents P (handle_system_trigger P hsc false false d ct act batch).cbs ++
          simStartupLoop P hsc
            (handle_system_trigger P hsc false false d ct act batch).answer
            (handle_system_trigger P hsc false false d ct act batch).deadline
            (handle_system_trigger P hsc false false d ct act batch).current_time
            (handle_system_trigger P hsc false false d ct act batch).active rest)
    else []

/-- Main loop of `TimerSimulated::start`, lines 127-133: while the timer is
active, wait on the waitset with no timeout (`waitset.wait()`) and process
one batch of triggers; nothing is published before or during the wait. -/
def simMainLoop (P : Nat) (hsc : Bool) :
    Nat → Nat → Bool → List (List Sample) → List SimEvent
  | _, _, _, [] => []
  | d, ct, act, batch :: rest =>
    if act = true then
      SimEvent.waitTrigger none ::
        (handleEvents P (handle_system_trigger P hsc false false d ct act batch).cbs ++
          simMainLoop P hsc
            (handle_system_trigger P hsc false false d ct act batch).deadline
            (handle_system_trigger P hsc false false d ct act batch).current_time
            (handle_system_trigger P hsc false false d ct act batch).active rest)
    else []

theorem handleEvents_no_wait (P : Nat) :
    ∀ (l : List Nat) (t : Option Nat), SimEvent.waitTrigger t ∉ handleEvents P l := by
  intro l
  induction l with
  | nil => intro t h; simp [handleEvents] at h
  | cons a l ih =>
    intro t h
    simp only [handleEvents, List.mem_cons] at h
    rcases h with h | h | h
    · exact absurd h (by simp)
    · exact absurd h (by simp)
    · exact ih t h

theorem simStartupLoop_wait_timeout (P : Nat) (hsc : Bool) :
    ∀ (batches : List (List Sample)) (ans : Answer) (d ct : Nat) (act : Bool)
      (t : Option Nat),
      SimEvent.waitTrigger t ∈ simStartupLoop P hsc ans d ct act batches →
      t = some 2000 := by
  intro batches
  induction batches with
  | nil => intro ans d ct act t h; simp [simStartupLoop] at h
  | cons batch rest ih =>
    intro ans d ct act t h
    simp only [simStartupLoop] at h
    by_cases hc : ans = Answer.NONE ∧ act = true
    · rw [if_pos hc] at h
      simp only [List.mem_cons, List.mem_append] at h
      rcases h with h | h | h | h
      · exact absurd h (by simp)
      · injection h
      · exact absurd h (handleEvents_no_wait P _ t)
      · exact ih _ _ _ _ t h
    · rw [if_neg hc] at h
      simp at h

theorem simMainLoop_wait_unbounded (P : Nat) (hsc : Bool) :
    ∀ (batches : List (List Sample)) (d ct : Nat) (act : Bool) (t : Option Nat),
      SimEvent.waitTrigger t ∈ simMainLoop P hsc d ct act batches → t = none := by
  intro batches
  induction batches with
  | nil => intro d ct act t h; simp [simMainLoop] at h
  | cons batch rest ih =>
    intro d ct act t h
    simp only [simMainLoop] at h
    by_cases hc : act = true
    · rw [if_pos hc] at h
      simp only [List.mem_cons, List.mem_append] at h
      rcases h with h | h | h
      · injection h
      · exact absurd h (handleEvents_no_wait P _ t)
      · exact ih _ _ _ t h
    · rw [if_neg hc] at h
      simp at h

theorem handleEvents_countP_wait (P : Nat) :
    ∀ l : List Nat, (handleEvents P l).countP isWaitEvent = 0 := by
  intro l
  induction l with
  | nil => rfl
  | cons a l ih => simp [handleEvents, List.countP_cons, isWaitEvent, ih]

theorem simStartupLoop_wait_le_publish (P : Nat) (hsc : Bool) :
    ∀ (batches : List (List Sample)) (ans : Answer) (d ct : Nat) (act : Bool),
      (simStartupLoop P hsc ans d ct act batches).countP isWaitEvent ≤
        (simStartupLoop P hsc ans d ct act batches).countP isPublishEvent := by
  intro batches
  induction batches with
  | nil => intro ans d ct act; simp [simStartupLoop]
  | cons batch rest ih =>
    intro ans d ct act
    simp only [simStartupLoop]
    by_cases hc : ans = Answer.NONE ∧ act = true
    · rw [if_pos hc]
      simp only [List.countP_cons, List.countP_append, isWaitEvent, isPublishEvent,
        handleEvents_countP_wait]
      have h1 := ih (handle_system_trigger P hsc false false d ct act batch).answer
        (handle_system_trigger P hsc false false d ct act batch).deadline
        (handle_system_trigger P hsc false false d ct act batch).current_time
        (handle_system_trigger P hsc false false d ct act batch).active
      omega
    · rw [if_neg hc]
      simp



/-- C8 (amended): keep-alive publication of the simulated timer.  In the
pre-start loop (before the first trigger is observed), every wait is bounded
by the 2000 ms timeout and each wait is preceded by a publication of the
current `ReadyStatus` in the same iteration (the wait count never exceeds
the publish count).  In the main loop between ticks, however, every wait is
unbounded (`waitset.wait()` with no timeout) and no keep-alive is published
while waiting: the only publications are those made by trigger processing
itself.  The claim as stated — a re-publish at least every 2 s also between
ticks in the main loop — is refuted by
`timerSimulated_main_loop_no_keepalive_cex`. -/
theorem timerSimulated_keepalive_publish (P d ct : Nat) (act hsc : Bool)
    (ans : Answer) (startupBatches mainBatches : List (List Sample)) :
    (∀ t, SimEvent.waitTrigger t ∈ simStartupLoop P hsc ans d ct act startupBatches →
      t = some 2000) ∧
    ((simStartupLoop P hsc ans d ct act startupBatches).countP isWaitEvent ≤
      (simStartupLoop P hsc ans d ct act startupBatches).countP isPublishEvent) ∧
    (∀ t, SimEvent.waitTrigger t ∈ simMainLoop P hsc d ct act mainBatches →
      t = none) :=
  ⟨fun t => simStartupLoop_wait_timeout P hsc startupBatches ans d ct act t,
    simStartupLoop_wait_le_publish P hsc startupBatches ans d ct act,
    fun t => simMainLoop_wait_unbounded P hsc mainBatches d ct act t⟩

/-- Counterexample to C8 as stated: a main-loop iteration of the simulated
timer in which no trigger arrives performs one unbounded wait and publishes
nothing at all — in particular it does not re-publish the current
`ReadyStatus` within 2 s of waiting. -/
theorem timerSimulated_main_loop_no_keepalive_cex :
    simMainLoop 10 false 30 20 true [[]] = [SimEvent.waitTrigger none] ∧
    (simMainLoop 10 false 30 20 true [[]]).countP isPublishEvent = 0 := by
  decide

/-! ## RTTAggregator, `lab_control_center/src/RTTAggregator.cpp` -/

/-- Aggregated round-trip-time data of one class id, the merged view of the
seven parallel containers of `RTTAggregator` (`current_best_rtt`,
`current_worst_rtt`, `all_time_worst_rtt`, `measure_count`,
`missed_answers`, `last_msg_timestamp`, `received_ids`): the source keeps
them in lock-step, inserting and erasing an id in all of them together.
`measure_count` and `missed_answers` are `double` in the source but only
ever hold integer counts (0, 1, and increments by 1). -/
structure RTTEntry where
  current_best : Nat
  current_worst : Nat
  all_time_worst : Nat
  measure_count : Nat
  missed_answers : Nat
  last_msg_timestamp : Nat
deriving DecidableEq

/-- The aggregator state: one entry per tracked class id. -/
abbrev RTTMap := List (String × RTTEntry)

/-- `delete_entry_timeout_ns = 10e9` (RTTAggregator.hpp line 44): entries
are evicted after 10 s without a response. -/
def delete_entry_timeout_ns : Nat := 10000000000

/-- Lookup in the per-id state (`std::map::find`). -/
def mapFind : RTTMap → String → Option RTTEntry
  | [], _ => none
  | (k, v) :: rest, id => if k = id then some v else mapFind rest id

/-- Store under a key (`std::map::operator[]` assignment): replace the
first entry with this key, or append a new one. -/
def mapSet : RTTMap → String → RTTEntry → RTTMap
  | [], id, v => [(id, v)]
  | (k, w) :: rest, id, v =>
    if k = id then (id, v) :: rest else (k, w) :: mapSet rest id v

/-- Remove a key (`std::map::erase`, `RTTAggregator::delete_entry`). -/
def mapErase : RTTMap → String → RTTMap
  | [], _ => []
  | (k, w) :: rest, id => if k = id then rest else (k, w) :: mapErase rest id

/-- One round of responses as `RTTTool::measure_rtt` returns them
(class id, best observed RTT, worst observed RTT), plus the clock value of
the round.  The source reads `cpm::get_time_ns()` separately per map
update inside one round; the model uses one clock value per round. -/
structure RTTRound where
  responses : List (String × Nat × Nat)
  now : Nat

/-- Response handling of `RTTAggregator::create_rtt_thread`, lines 36-63:
store the new best and worst values and the response time; on the first
response of an id initialise `missed_answers := 0`, `measure_count := 1`
and `all_time_worst := worst`, otherwise increment `measure_count` and take
the maximum of the worst values. -/
def processResponse (now : Nat) (m : RTTMap) (resp : String × Nat × Nat) :
    RTTMap :=
  match mapFind m resp.1 with
  | none => mapSet m resp.1 ⟨resp.2.1, resp.2.2, resp.2.2, 1, 0, now⟩
  | some e => mapSet m resp.1
      ⟨resp.2.1, resp.2.2, max resp.2.2 e.all_time_worst,
        e.measure_count + 1, e.missed_answers, now⟩

/-- Missing-id handling of `RTTAggregator::create_rtt_thread`, lines 67-91:
when `now - last_msg_timestamp > delete_entry_timeout_ns` (`uint64_t`
subtraction) delete the entry entirely, else zero `current_best` and
`current_worst` and increment `missed_answers` and `measure_count`
(`last_msg_timestamp` and `all_time_worst` are left unchanged).  The
first branch mirrors the defensive lines 80-84 for an id with no
`measure_count` entry; it is unreachable through `rttRound` because
missing ids are drawn from the tracked ids. -/
def processMissing (now : Nat) (m : RTTMap) (id : String) : RTTMap :=
  match mapFind m id with
  | none =>
    if delete_entry_timeout_ns < sub64 now 0 then m
    else mapSet m id ⟨0, 0, 0, 1, 1, 0⟩
  | some e =>
    if delete_entry_timeout_ns < sub64 now e.last_msg_timestamp then
      mapErase m id
    else mapSet m id
      ⟨0, 0, e.all_time_worst, e.measure_count + 1, e.missed_answers + 1,
        e.last_msg_timestamp⟩

/-- One iteration of the measurement loop of
`RTTAggregator::create_rtt_thread`, lines 24-92: process the responses of
this round (if any), then process every previously tracked id that did not
respond (`missing_ids` is the copy of `received_ids` taken before the
response loop, minus the responding ids). -/
def rttRound (m : RTTMap) (r : RTTRound) : RTTMap :=
  ((m.map Prod.fst).filter
      (fun id => ! r.responses.any (fun p => p.1 == id))).foldl
    (processMissing r.now)
    (if 0 < r.responses.length
      then r.responses.foldl (processResponse r.now) m else m)

/-- Result of a successful `RTTAggregator::get_rtt` query: the three RTT
values, the missed-answers fraction, and whether the overflow warning was
logged. -/
structure RTTQuery where
  best : Nat
  worst : Nat
  all_time_worst : Nat
  missed_fraction : ℚ
  warning : Bool
deriving DecidableEq

/-- `RTTAggregator::get_rtt`, lines 139-165: `none` (`return false`) when
the id has no entry, the out-parameters untouched; otherwise the stored
values with `missed_fraction = missed_answers / measure_count`, guarded by
`measure_count <= 0`, in which case the fraction is 0 and a warning is
logged. -/
def get_rtt (m : RTTMap) (id : String) : Option RTTQuery :=
  match mapFind m id with
  | none => none
  | some e =>
    if e.measure_count ≤ 0 then
      some ⟨e.current_best, e.current_worst, e.all_time_worst, 0, true⟩
    else
      some ⟨e.current_best, e.current_worst, e.all_time_worst,
        (e.missed_answers : ℚ) / (e.measure_count : ℚ), false⟩

/-- Well-formedness of one round of responses: `measure_rtt` aggregates a
per-class list of round-trip times into its minimum and maximum.
Modelled from the spec: `RTTTool::measure_rtt` (step 4 of the probe
protocol, `best = min(list)`, `worst = max(list)`) is declared in
`cpm_lib/include/cpm/RTTTool.hpp` but its implementation is not among the
staged sources, so only `best ≤ worst` is assumed of each response. -/
def roundOK (r : RTTRound) : Prop := ∀ p ∈ r.responses, p.2.1 ≤ p.2.2

/-- Aggregator states reachable from the empty state (construction or
`restart_measurement`, which clears every container) through measurement
rounds with well-formed responses. -/
inductive Reachable : RTTMap → Prop
  | init : Reachable []
  | step (m : RTTMap) (r : RTTRound) (hm : Reachable m) (hr : roundOK r) :
      Reachable (rttRound m r)

theorem mapFind_mapSet (m : RTTMap) (k id : String) (v : RTTEntry) :
    mapFind (mapSet m k v) id = if k = id then some v else mapFind m id := by
  induction m with
  | nil => simp [mapSet, mapFind]
  | cons p rest ih =>
    obtain ⟨k0, w⟩ := p
    by_cases h0 : k0 = k
    · subst h0
      simp only [mapSet, if_pos rfl]
      by_cases h1 : k0 = id
      · subst h1; simp [mapFind]
      · simp [mapFind, h1]
    · simp only [mapSet, if_neg h0]
      by_cases h1 : k0 = id
      · subst h1
        have : k ≠ k0 := fun h => h0 h.symm
        simp [mapFind, this]
      · simp [mapFind, h1, ih]

theorem mapFind_mapErase_ne (m : RTTMap) (k id : String) (h : k ≠ id) :
    mapFind (mapErase m k) id = mapFind m id := by
  induction m with
  | nil => simp [mapErase]
  | cons p rest ih =>
    obtain ⟨k0, w⟩ := p
    by_cases h0 : k0 = k
    · subst h0
      simp only [mapErase, if_pos rfl]
      simp [mapFind, h]
    · simp only [mapErase, if_neg h0]
      by_cases h1 : k0 = id
      · subst h1; simp [mapFind]
      · simp [mapFind, h1, ih]

theorem mapFind_eq_none_iff (m : RTTMap) (id : String) :
    mapFind m id = none ↔ id ∉ m.map Prod.fst := by
  induction m with
  | nil => simp [mapFind]
  | cons p rest ih =>
    obtain ⟨k0, w⟩ := p
    by_cases h0 : k0 = id
    · subst h0; simp [mapFind]
    · have hid : ¬id = k0 := fun h => h0 h.symm
      simp only [mapFind, if_neg h0, List.map_cons, List.mem_cons]
      rw [ih]
      constructor
      · intro hni hmem
        rcases hmem with h1 | h1
        · exact hid h1
        · exact hni h1
      · intro hcon h1
        exact hcon (Or.inr h1)

theorem mapFind_mem (m : RTTMap) (id : String) (e : RTTEntry)
    (h : mapFind m id = some e) : (id, e) ∈ m := by
  induction m with
  | nil => simp [mapFind] at h
  | cons p rest ih =>
    obtain ⟨k0, w⟩ := p
    by_cases h0 : k0 = id
    · subst h0
      have h2 : some w = some e := by simpa [mapFind] using h
      injection h2 with h3
      subst h3
      exact List.mem_cons_self _ _
    · simp only [mapFind, if_neg h0] at h
      exact List.mem_cons_of_mem _ (ih h)

theorem mem_mapSet (m : RTTMap) (k : String) (v : RTTEntry) :
    ∀ p ∈ mapSet m k v, p = (k, v) ∨ p ∈ m := by
  induction m with
  | nil =>
    intro p hp
    simp only [mapSet, List.mem_singleton] at hp
    exact Or.inl hp
  | cons q rest ih =>
    obtain ⟨k0, w⟩ := q
    intro p hp
    by_cases h0 : k0 = k
    · subst h0
      have hp2 : p ∈ (k0, v) :: rest := by simpa [mapSet] using hp
      rcases List.mem_cons.mp hp2 with h | h
      · exact Or.inl h
      · exact Or.inr (List.mem_cons_of_mem _ h)
    · simp only [mapSet, if_neg h0, List.mem_cons] at hp
      rcases hp with h | h
      · exact Or.inr (by simp [h])
      · rcases ih p h with h2 | h2
        · exact Or.inl h2
        · exact Or.inr (List.mem_cons_of_mem _ h2)

theorem mapErase_sublist (m : RTTMap) (k : String) :
    (mapErase m k).Sublist m := by
  induction m with
  | nil => simp [mapErase]
  | cons p rest ih =>
    obtain ⟨k0, w⟩ := p
    by_cases h0 : k0 = k
    · simp only [mapErase, if_pos h0]
      exact List.sublist_cons_self _ _
    · simp only [mapErase, if_neg h0]
      exact List.Sublist.cons₂ _ ih

theorem mapErase_find_self (m : RTTMap) (id : String)
    (h : (m.map Prod.fst).Nodup) : mapFind (mapErase m id) id = none := by
  induction m with
  | nil => simp [mapErase, mapFind]
  | cons p rest ih =>
    obtain ⟨k0, w⟩ := p
    simp only [List.map_cons, List.nodup_cons] at h
    by_cases h0 : k0 = id
    · subst h0
      simp only [mapErase, if_pos rfl]
      rw [mapFind_eq_none_iff]
      exact h.1
    · simp only [mapErase, if_neg h0]
      simp [mapFind, h0, ih h.2]

theorem mem_keys_mapSet (m : RTTMap) (k : String) (v : RTTEntry) (a : String)
    (h : a ∈ (mapSet m k v).map Prod.fst) : a = k ∨ a ∈ m.map Prod.fst := by
  rw [List.mem_map] at h
  obtain ⟨p, hp, ha⟩ := h
  rcases mem_mapSet m k v p hp with h2 | h2
  · subst h2
    exact Or.inl ha.symm
  · exact Or.inr (List.mem_map.mpr ⟨p, h2, ha⟩)

theorem keys_nodup_mapSet (m : RTTMap) (k : String) (v : RTTEntry)
    (h : (m.map Prod.fst).Nodup) : ((mapSet m k v).map Prod.fst).Nodup := by
  induction m with
  | nil => simp [mapSet]
  | cons q rest ih =>
    obtain ⟨k0, w⟩ := q
    simp only [List.map_cons, List.nodup_cons] at h
    by_cases h0 : k0 = k
    · subst h0
      have he : mapSet ((k0, w) :: rest) k0 v = (k0, v) :: rest := by
        simp [mapSet]
      rw [he]
      simp only [List.map_cons, List.nodup_cons]
      exact h
    · have he : mapSet ((k0, w) :: rest) k v = (k0, w) :: mapSet rest k v := by
        simp [mapSet, h0]
      rw [he]
      simp only [List.map_cons, List.nodup_cons]
      refine ⟨?_, ih h.2⟩
      intro hmem
      rcases mem_keys_mapSet rest k v k0 hmem with h2 | h2
      · exact h0 h2
      · exact h.1 h2

theorem keys_nodup_mapErase (m : RTTMap) (k : String)
    (h : (m.map Prod.fst).Nodup) : ((mapErase m k).map Prod.fst).Nodup :=
  List.Nodup.sublist ((mapErase_sublist m k).map Prod.fst) h

theorem keys_nodup_processResponse (now : Nat) (m : RTTMap)
    (resp : String × Nat × Nat) (h : (m.map Prod.fst).Nodup) :
    ((processResponse now m resp).map Prod.fst).Nodup := by
  unfold processResponse
  split
  · exact keys_nodup_mapSet m _ _ h
  · exact keys_nodup_mapSet m _ _ h

theorem keys_nodup_processMissing (now : Nat) (m : RTTMap) (id : String)
    (h : (m.map Prod.fst).Nodup) :
    ((processMissing now m id).map Prod.fst).Nodup := by
  unfold processMissing
  split
  · split
    · exact h
    · exact keys_nodup_mapSet m _ _ h
  · split
    · exact keys_nodup_mapErase m _ h
    · exact keys_nodup_mapSet m _ _ h

theorem keys_nodup_foldl_processResponse (now : Nat) :
    ∀ (l : List (String × Nat × Nat)) (m : RTTMap),
      (m.map Prod.fst).Nodup →
      ((l.foldl (processResponse now) m).map Prod.fst).Nodup := by
  intro l
  induction l with
  | nil => intro m h; exact h
  | cons x l ih =>
    intro m h
    exact ih _ (keys_nodup_processResponse now m x h)

theorem keys_nodup_foldl_processMissing (now : Nat) :
    ∀ (l : List String) (m : RTTMap),
      (m.map Prod.fst).Nodup →
      ((l.foldl (processMissing now) m).map Prod.fst).Nodup := by
  intro l
  induction l with
  | nil => intro m h; exact h
  | cons x l ih =>
    intro m h
    exact ih _ (keys_nodup_processMissing now m x h)

theorem keys_nodup_rttRound (m : RTTMap) (r : RTTRound)
    (h : (m.map Prod.fst).Nodup) : ((rttRound m r).map Prod.fst).Nodup := by
  unfold rttRound
  apply keys_nodup_foldl_processMissing
  by_cases hlen : 0 < r.responses.length
  · rw [if_pos hlen]
    exact keys_nodup_foldl_processResponse _ _ _ h
  · rw [if_neg hlen]
    exact h

theorem Reachable_keys_nodup (m : RTTMap) (h : Reachable m) :
    (m.map Prod.fst).Nodup := by
  induction h with
  | init => simp
  | step m r _ _ ih => exact keys_nodup_rttRound m r ih

/-- Invariant of one tracked entry: the current values are ordered below
the all-time worst, at least one measurement was counted, and the missed
count never exceeds the measurement count. -/
def entryOK (e : RTTEntry) : Prop :=
  e.current_best ≤ e.current_worst ∧ e.current_worst ≤ e.all_time_worst ∧
  1 ≤ e.measure_count ∧ e.missed_answers ≤ e.measure_count

/-- Invariant of the whole aggregator state. -/
def mapOK (m : RTTMap) : Prop := ∀ p ∈ m, entryOK p.2

theorem mapOK_mapSet (m : RTTMap) (k : String) (v : RTTEntry)
    (hm : mapOK m) (hv : entryOK v) : mapOK (mapSet m k v) := by
  intro p hp
  rcases mem_mapSet m k v p hp with h | h
  · rw [h]
    exact hv
  · exact hm p h

theorem mapOK_processResponse (now : Nat) (m : RTTMap)
    (resp : String × Nat × Nat) (hm : mapOK m) (hbw : resp.2.1 ≤ resp.2.2) :
    mapOK (processResponse now m resp) := by
  unfold processResponse
  split
  · exact mapOK_mapSet _ _ _ hm ⟨hbw, le_refl _, le_refl 1, Nat.zero_le 1⟩
  · rename_i e heq
    have he : entryOK e := hm _ (mapFind_mem _ _ _ heq)
    obtain ⟨_, _, h3, h4⟩ := he
    exact mapOK_mapSet _ _ _ hm ⟨hbw, le_max_left _ _,
      (by show 1 ≤ e.measure_count + 1; omega),
      (by show e.missed_answers ≤ e.measure_count + 1; omega)⟩

theorem mapOK_processMissing (now : Nat) (m : RTTMap) (id : String)
    (hm : mapOK m) : mapOK (processMissing now m id) := by
  unfold processMissing
  split
  · split
    · exact hm
    · exact mapOK_mapSet _ _ _ hm ⟨le_refl 0, Nat.zero_le _, le_refl 1, le_refl 1⟩
  · rename_i e heq
    have he : entryOK e := hm _ (mapFind_mem _ _ _ heq)
    obtain ⟨_, _, h3, h4⟩ := he
    split
    · exact fun p hp => hm p ((mapErase_sublist m id).subset hp)
    · exact mapOK_mapSet _ _ _ hm ⟨le_refl 0, Nat.zero_le _,
        (by show 1 ≤ e.measure_count + 1; omega),
        (by show e.missed_answers + 1 ≤ e.measure_count + 1; omega)⟩

theorem mapOK_foldl_processResponse (now : Nat) :
    ∀ (l : List (String × Nat × Nat)) (m : RTTMap), mapOK m →
      (∀ p ∈ l, p.2.1 ≤ p.2.2) → mapOK (l.foldl (processResponse now) m) := by
  intro l
  induction l with
  | nil => intro m hm _; exact hm
  | cons x l ih =>
    intro m hm hl
    exact ih _ (mapOK_processResponse now m x hm (hl x (List.mem_cons_self _ _)))
      (fun p hp => hl p (List.mem_cons_of_mem _ hp))

theorem mapOK_foldl_processMissing (now : Nat) :
    ∀ (l : List String) (m : RTTMap), mapOK m →
      mapOK (l.foldl (processMissing now) m) := by
  intro l
  induction l with
  | nil => intro m hm; exact hm
  | cons x l ih =>
    intro m hm
    exact ih _ (mapOK_processMissing now m x hm)

theorem mapOK_rttRound (m : RTTMap) (r : RTTRound) (hm : mapOK m)
    (hr : roundOK r) : mapOK (rttRound m r) := by
  unfold rttRound
  apply mapOK_foldl_processMissing
  by_cases hlen : 0 < r.responses.length
  · rw [if_pos hlen]
    exact mapOK_foldl_processResponse _ _ _ hm hr
  · rw [if_neg hlen]
    exact hm

theorem Reachable_mapOK (m : RTTMap) (h : Reachable m) : mapOK m := by
  induction h with
  | init => intro p hp; simp at hp
  | step m r _ hr ih => exact mapOK_rttRound m r ih hr

theorem find_processResponse_ne (now : Nat) (m : RTTMap)
    (resp : String × Nat × Nat) (id : String) (h : resp.1 ≠ id) :
    mapFind (processResponse now m resp) id = mapFind m id := by
  unfold processResponse
  split
  · rw [mapFind_mapSet, if_neg h]
  · rw [mapFind_mapSet, if_neg h]

theorem find_foldl_processResponse_ne (now : Nat) (id : String) :
    ∀ (l : List (String × Nat × Nat)) (m : RTTMap), (∀ p ∈ l, p.1 ≠ id) →
      mapFind (l.foldl (processResponse now) m) id = mapFind m id := by
  intro l
  induction l with
  | nil => intro m _; rfl
  | cons x l ih =>
    intro m hl
    rw [List.foldl_cons,
      ih _ (fun p hp => hl p (List.mem_cons_of_mem _ hp)),
      find_processResponse_ne now m x id (hl x (List.mem_cons_self _ _))]

theorem find_processMissing_ne (now : Nat) (m : RTTMap) (x id : String)
    (h : x ≠ id) : mapFind (processMissing now m x) id = mapFind m id := by
  unfold processMissing
  split
  · split
    · rfl
    · rw [mapFind_mapSet, if_neg h]
  · split
    · exact mapFind_mapErase_ne m x id h
    · rw [mapFind_mapSet, if_neg h]

theorem find_foldl_processMissing_ne (now : Nat) (id : String) :
    ∀ (l : List String) (m : RTTMap), (∀ x ∈ l, x ≠ id) →
      mapFind (l.foldl (processMissing now) m) id = mapFind m id := by
  intro l
  induction l with
  | nil => intro m _; rfl
  | cons x l ih =>
    intro m hl
    rw [List.foldl_cons,
      ih _ (fun y hy => hl y (List.mem_cons_of_mem _ hy)),
      find_processMissing_ne now m x id (hl x (List.mem_cons_self _ _))]

theorem foldl_processMissing_evict (now : Nat) :
    ∀ (l : List String) (m : RTTMap) (id : String) (e : RTTEntry),
      l.Nodup → id ∈ l → (m.map Prod.fst).Nodup → mapFind m id = some e →
      delete_entry_timeout_ns < sub64 now e.last_msg_timestamp →
      mapFind (l.foldl (processMissing now) m) id = none := by
  intro l
  induction l with
  | nil =>
    intro m id e _ hmem
    simp at hmem
  | cons x l ih =>
    intro m id e hnd hmem hknd hfind htime
    rw [List.nodup_cons] at hnd
    rw [List.foldl_cons]
    by_cases hx : x = id
    · subst hx
      have hne : ∀ y ∈ l, y ≠ x := fun y hy he => hnd.1 (he ▸ hy)
      rw [find_foldl_processMissing_ne now x l _ hne]
      unfold processMissing
      split
      · rename_i heq
        rw [hfind] at heq
        exact absurd heq (by simp)
      · rename_i e2 heq
        rw [hfind] at heq
        injection heq with heq
        subst heq
        rw [if_pos htime]
        exact mapErase_find_self m x hknd
    · have hfind2 : mapFind (processMissing now m x) id = mapFind m id :=
        find_processMissing_ne now m x id hx
      rcases List.mem_cons.mp hmem with h | h
      · exact absurd h.symm hx
      · exact ih (processMissing now m x) id e hnd.2 h
          (keys_nodup_processMissing now m x hknd) (hfind2.trans hfind) htime

theorem foldl_processMissing_update (now : Nat) :
    ∀ (l : List String) (m : RTTMap) (id : String) (e : RTTEntry),
      l.Nodup → id ∈ l → mapFind m id = some e →
      sub64 now e.last_msg_timestamp ≤ delete_entry_timeout_ns →
      mapFind (l.foldl (processMissing now) m) id =
        some ⟨0, 0, e.all_time_worst, e.measure_count + 1,
          e.missed_answers + 1, e.last_msg_timestamp⟩ := by
  intro l
  induction l with
  | nil =>
    intro m id e _ hmem
    simp at hmem
  | cons x l ih =>
    intro m id e hnd hmem hfind htime
    rw [List.nodup_cons] at hnd
    rw [List.foldl_cons]
    by_cases hx : x = id
    · subst hx
      have hne : ∀ y ∈ l, y ≠ x := fun y hy he => hnd.1 (he ▸ hy)
      rw [find_foldl_processMissing_ne now x l _ hne]
      unfold processMissing
      split
      · rename_i heq
        rw [hfind] at heq
        exact absurd heq (by simp)
      · rename_i e2 heq
        rw [hfind] at heq
        injection heq with heq
        subst heq
        rw [if_neg (by omega)]
        rw [mapFind_mapSet, if_pos rfl]
    · have hfind2 : mapFind (processMissing now m x) id = mapFind m id :=
        find_processMissing_ne now m x id hx
      rcases List.mem_cons.mp hmem with h | h
      · exact absurd h.symm hx
      · exact ih (processMissing now m x) id e hnd.2 h (hfind2.trans hfind) htime

theorem get_rtt_eq_none (m : RTTMap) (id : String)
    (h : mapFind m id = none) : get_rtt m id = none := by
  unfold get_rtt
  rw [h]

theorem get_rtt_eq_warn (m : RTTMap) (id : String) (e : RTTEntry)
    (h : mapFind m id = some e) (h0 : e.measure_count ≤ 0) :
    get_rtt m id =
      some ⟨e.current_best, e.current_worst, e.all_time_worst, 0, true⟩ := by
  unfold get_rtt
  rw [h]
  show (if e.measure_count ≤ 0 then
      some (⟨e.current_best, e.current_worst, e.all_time_worst, 0, true⟩ : RTTQuery)
    else some ⟨e.current_best, e.current_worst, e.all_time_worst,
      (e.missed_answers : ℚ) / (e.measure_count : ℚ), false⟩) =
    some ⟨e.current_best, e.current_worst, e.all_time_worst, 0, true⟩
  rw [if_pos h0]

theorem get_rtt_eq_frac (m : RTTMap) (id : String) (e : RTTEntry)
    (h : mapFind m id = some e) (h0 : ¬ e.measure_count ≤ 0) :
    get_rtt m id =
      some ⟨e.current_best, e.current_worst, e.all_time_worst,
        (e.missed_answers : ℚ) / (e.measure_count : ℚ), false⟩ := by
  unfold get_rtt
  rw [h]
  show (if e.measure_count ≤ 0 then
      some (⟨e.current_best, e.current_worst, e.all_time_worst, 0, true⟩ : RTTQuery)
    else some ⟨e.current_best, e.current_worst, e.all_time_worst,
      (e.missed_answers : ℚ) / (e.measure_count : ℚ), false⟩) =
    some ⟨e.current_best, e.current_worst, e.all_time_worst,
      (e.missed_answers : ℚ) / (e.measure_count : ℚ), false⟩
  rw [if_neg h0]

instance (r : RTTRound) : Decidable (roundOK r) :=
  inferInstanceAs (Decidable (∀ p ∈ r.responses, p.2.1 ≤ p.2.2))

theorem rttRound_missing_mem (m : RTTMap) (r : RTTRound) (id : String)
    (e : RTTEntry) (hfind : mapFind m id = some e)
    (hmiss : ∀ p ∈ r.responses, p.1 ≠ id) :
    id ∈ (m.map Prod.fst).filter
      (fun i => ! r.responses.any (fun p => p.1 == i)) := by
  apply List.mem_filter.mpr
  refine ⟨List.mem_map.mpr ⟨(id, e), mapFind_mem m id e hfind, rfl⟩, ?_⟩
  simp only [Bool.not_eq_true', List.any_eq_false, beq_iff_eq]
  exact hmiss

theorem rttRound_m1_find (m : RTTMap) (r : RTTRound) (id : String)
    (e : RTTEntry) (hfind : mapFind m id = some e)
    (hmiss : ∀ p ∈ r.responses, p.1 ≠ id) :
    mapFind (if 0 < r.responses.length
      then r.responses.foldl (processResponse r.now) m else m) id = some e := by
  by_cases hlen : 0 < r.responses.length
  · rw [if_pos hlen,
      find_foldl_processResponse_ne r.now id r.responses m hmiss, hfind]
  · rw [if_neg hlen, hfind]

/-- C5: query invariants of the RTT aggregator.  In every reachable state
and for every id: a successful `get_rtt` returns
`missed_fraction = missed_answers / measure_count` with
`0 ≤ missed_fraction ≤ 1` and `current_best ≤ current_worst ≤
all_time_worst` (and no warning, since `measure_count ≥ 1` holds in every
reachable entry); the defensive guard returns fraction 0 and logs the
warning whenever `measure_count ≤ 0` at query time; and an id with no
entry yields `none` (`return false`, no out-parameter written). -/
theorem rtt_get_invariants (m : RTTMap) (id : String) (hm : Reachable m) :
    (∀ q, get_rtt m id = some q →
      0 ≤ q.missed_fraction ∧ q.missed_fraction ≤ 1 ∧
      q.best ≤ q.worst ∧ q.worst ≤ q.all_time_worst ∧ q.warning = false ∧
      ∃ e, mapFind m id = some e ∧
        q.missed_fraction = (e.missed_answers : ℚ) / (e.measure_count : ℚ)) ∧
    (∀ e, mapFind m id = some e → e.measure_count ≤ 0 →
      get_rtt m id =
        some ⟨e.current_best, e.current_worst, e.all_time_worst, 0, true⟩) ∧
    (mapFind m id = none → get_rtt m id = none) := by
  have hOK := Reachable_mapOK m hm
  refine ⟨?_, fun e he h0 => get_rtt_eq_warn m id e he h0,
    fun h => get_rtt_eq_none m id h⟩
  intro q hq
  cases hfind : mapFind m id with
  | none =>
    rw [get_rtt_eq_none m id hfind] at hq
    exact absurd hq (by simp)
  | some e =>
    obtain ⟨h1, h2, h3, h4⟩ : entryOK e := hOK _ (mapFind_mem _ _ _ hfind)
    have h0 : ¬ e.measure_count ≤ 0 := by omega
    rw [get_rtt_eq_frac m id e hfind h0] at hq
    injection hq with hq
    subst hq
    have hmcQ : (0 : ℚ) < (e.measure_count : ℚ) := by
      have : 0 < e.measure_count := by omega
      exact_mod_cast this
    refine ⟨div_nonneg (Nat.cast_nonneg _) (Nat.cast_nonneg _), ?_,
      h1, h2, rfl, e, rfl, rfl⟩
    rw [div_le_one hmcQ]
    exact_mod_cast h4

/-- Witness for `rtt_get_invariants`: the state after one round with the
single response `("vehicle", 3, 7)` taken at time 100. -/
theorem rtt_get_invariants_witness :
    (∀ q, get_rtt [("vehicle", ⟨3, 7, 7, 1, 0, 100⟩)] "vehicle" = some q →
      0 ≤ q.missed_fraction ∧ q.missed_fraction ≤ 1 ∧
      q.best ≤ q.worst ∧ q.worst ≤ q.all_time_worst ∧ q.warning = false ∧
      ∃ e, mapFind [("vehicle", ⟨3, 7, 7, 1, 0, 100⟩)] "vehicle" = some e ∧
        q.missed_fraction = (e.missed_answers : ℚ) / (e.measure_count : ℚ)) ∧
    (∀ e, mapFind [("vehicle", ⟨3, 7, 7, 1, 0, 100⟩)] "vehicle" = some e →
      e.measure_count ≤ 0 →
      get_rtt [("vehicle", ⟨3, 7, 7, 1, 0, 100⟩)] "vehicle" =
        some ⟨e.current_best, e.current_worst, e.all_time_worst, 0, true⟩) ∧
    (mapFind [("vehicle", ⟨3, 7, 7, 1, 0, 100⟩)] "vehicle" = none →
      get_rtt [("vehicle", ⟨3, 7, 7, 1, 0, 100⟩)] "vehicle" = none) :=
  rtt_get_invariants [("vehicle", ⟨3, 7, 7, 1, 0, 100⟩)] "vehicle"
    (Reachable.step [] ⟨[("vehicle", 3, 7)], 100⟩ Reachable.init (by decide))

/-- C7: liveness eviction of the RTT aggregator.  When a measurement round
yields no response for a tracked id and the `uint64_t` difference between
the round clock and the last response time exceeds the 10 s timeout, the
round deletes the whole entry (`delete_entry` erases every container), so
a subsequent `get_rtt` reports no entry; and on a later round, a response
for an id with no entry re-creates it with `measure_count = 1` and
`missed_answers = 0`. -/
theorem rtt_eviction_and_recreation (m : RTTMap) (r : RTTRound) (id : String)
    (e : RTTEntry) (hm : Reachable m) (hfind : mapFind m id = some e)
    (hmiss : ∀ p ∈ r.responses, p.1 ≠ id)
    (htime : delete_entry_timeout_ns < sub64 r.now e.last_msg_timestamp) :
    (mapFind (rttRound m r) id = none ∧ get_rtt (rttRound m r) id = none) ∧
    (∀ (m2 : RTTMap) (now2 b w : Nat), mapFind m2 id = none →
      mapFind (rttRound m2 ⟨[(id, b, w)], now2⟩) id =
        some ⟨b, w, w, 1, 0, now2⟩) := by
  constructor
  · have hmem := rttRound_missing_mem m r id e hfind hmiss
    have hnd := Reachable_keys_nodup m hm
    have hm1 := rttRound_m1_find m r id e hfind hmiss
    have hm1nd : ((if 0 < r.responses.length
        then r.responses.foldl (processResponse r.now) m else m).map
          Prod.fst).Nodup := by
      by_cases hlen : 0 < r.responses.length
      · rw [if_pos hlen]
        exact keys_nodup_foldl_processResponse _ _ _ hnd
      · rw [if_neg hlen]
        exact hnd
    have hfnone : mapFind (rttRound m r) id = none := by
      unfold rttRound
      exact foldl_processMissing_evict r.now _ _ id e
        (hnd.filter _) hmem hm1nd hm1 htime
    exact ⟨hfnone, get_rtt_eq_none _ _ hfnone⟩
  · intro m2 now2 b w hnone
    have hm2 : mapFind ((([(id, b, w)] : List (String × Nat × Nat)).foldl
        (processResponse now2) m2)) id = some ⟨b, w, w, 1, 0, now2⟩ := by
      rw [List.foldl_cons, List.foldl_nil]
      unfold processResponse
      split
      · rw [mapFind_mapSet, if_pos rfl]
      · rename_i e2 heq
        rw [show ((id, b, w) : String × Nat × Nat).1 = id from rfl, hnone] at heq
        exact absurd heq (by simp)
    have hne : ∀ x ∈ (m2.map Prod.fst).filter
        (fun i => ! ([((id : String), b, w)]).any (fun p => p.1 == i)),
        x ≠ id := by
      intro x hx hxid
      subst hxid
      exact (mapFind_eq_none_iff m2 x).mp hnone ((List.mem_filter.mp hx).1)
    unfold rttRound
    rw [if_pos (show 0 < ([((id : String), b, w)]).length from Nat.one_pos)]
    rw [find_foldl_processMissing_ne now2 id _ _ hne, hm2]

/-- Witness for `rtt_eviction_and_recreation`: the one-entry state after a
response at time 100, then a silent round at time 10000000101 (10 s plus
1 ns after the last response). -/
theorem rtt_eviction_and_recreation_witness :
    (mapFind (rttRound [("vehicle", ⟨3, 7, 7, 1, 0, 100⟩)]
        ⟨[], 10000000101⟩) "vehicle" = none ∧
      get_rtt (rttRound [("vehicle", ⟨3, 7, 7, 1, 0, 100⟩)]
        ⟨[], 10000000101⟩) "vehicle" = none) ∧
    (∀ (m2 : RTTMap) (now2 b w : Nat), mapFind m2 "vehicle" = none →
      mapFind (rttRound m2 ⟨[("vehicle", b, w)], now2⟩) "vehicle" =
        some ⟨b, w, w, 1, 0, now2⟩) :=
  rtt_eviction_and_recreation [("vehicle", ⟨3, 7, 7, 1, 0, 100⟩)]
    ⟨[], 10000000101⟩ "vehicle" ⟨3, 7, 7, 1, 0, 100⟩
    (Reachable.step [] ⟨[("vehicle", 3, 7)], 100⟩ Reachable.init (by decide))
    (by decide) (by decide) (by decide)

/-- C10: frame effect of a silent round within the eviction timeout.  A
tracked id with no response in the round gets `current_best` and
`current_worst` overwritten with 0 while `all_time_worst` (and
`last_msg_timestamp`) stay unchanged and both counters increment, so a
subsequent `get_rtt` returns best = worst = 0 together with the old
(possibly strictly positive) all-time worst. -/
theorem rtt_missing_round_frame (m : RTTMap) (r : RTTRound) (id : String)
    (e : RTTEntry) (hm : Reachable m) (hfind : mapFind m id = some e)
    (hmiss : ∀ p ∈ r.responses, p.1 ≠ id)
    (htime : sub64 r.now e.last_msg_timestamp ≤ delete_entry_timeout_ns) :
    mapFind (rttRound m r) id =
      some ⟨0, 0, e.all_time_worst, e.measure_count + 1,
        e.missed_answers + 1, e.last_msg_timestamp⟩ ∧
    get_rtt (rttRound m r) id =
      some ⟨0, 0, e.all_time_worst,
        ((e.missed_answers + 1 : Nat) : ℚ) / ((e.measure_count + 1 : Nat) : ℚ),
        false⟩ := by
  have hmem := rttRound_missing_mem m r id e hfind hmiss
  have hnd := Reachable_keys_nodup m hm
  have hm1 := rttRound_m1_find m r id e hfind hmiss
  have hffind : mapFind (rttRound m r) id = some ⟨0, 0, e.all_time_worst,
      e.measure_count + 1, e.missed_answers + 1, e.last_msg_timestamp⟩ := by
    unfold rttRound
    exact foldl_processMissing_update r.now _ _ id e
      (hnd.filter _) hmem hm1 htime
  refine ⟨hffind, ?_⟩
  rw [get_rtt_eq_frac _ _ _ hffind
    (by show ¬ e.measure_count + 1 ≤ 0; omega)]

/-- Witness for `rtt_missing_round_frame`: the one-entry state after a
response `(3, 7)` at time 100, then a silent round at time 200 (within the
timeout): best and worst drop to 0, the all-time worst stays 7 > 0 and the
missed fraction becomes 1/2. -/
theorem rtt_missing_round_frame_witness :
    mapFind (rttRound [("vehicle", ⟨3, 7, 7, 1, 0, 100⟩)] ⟨[], 200⟩)
        "vehicle" =
      some ⟨0, 0, 7, 1 + 1, 0 + 1, 100⟩ ∧
    get_rtt (rttRound [("vehicle", ⟨3, 7, 7, 1, 0, 100⟩)] ⟨[], 200⟩)
        "vehicle" =
      some ⟨0, 0, 7, ((0 + 1 : Nat) : ℚ) / ((1 + 1 : Nat) : ℚ), false⟩ :=
  rtt_missing_round_frame [("vehicle", ⟨3, 7, 7, 1, 0, 100⟩)] ⟨[], 200⟩
    "vehicle" ⟨3, 7, 7, 1, 0, 100⟩
    (Reachable.step [] ⟨[("vehicle", 3, 7)], 100⟩ Reachable.init (by decide))
    (by decide) (by decide) (by decide)

end CpmLab
